import Mathlib

/-!
Verification of the text-normalization pipeline in `process.py`
(repository `preprocess-corpora`).

Lines of text are modelled as `List Char`.  Each Python regular-expression
substitution in the source is a simple left-to-right scanner, and is embedded
here as a recursive function on `List Char` that mirrors the scanning
semantics of `re.sub`: at each position the engine tries to match the
pattern (greedily, with backtracking inside an optional `\s?` and ordered
alternation); on success it emits the replacement and resumes after the
matched text, on failure it emits the current character and advances one
position.

Python `str.replace` is embedded generically (`pyReplace`).  Python's `\w`
is modelled as ASCII alphanumerics plus underscore (`isPyWord`); no claim
below depends on the non-ASCII extent of `\w`.  Python's `\s` and
`str.strip` use the same whitespace set, embedded exactly (`isPySpace`).
-/

/-- The whitespace characters recognised by Python's `str.strip` and by the
class `\s` in `re` patterns over `str`: ASCII whitespace, the C0 separator
block 1C-1F, NEL, and the Unicode space characters. -/
def isPySpace (c : Char) : Bool :=
  c = ' ' || c = '\t' || c = '\n' || c = '\r' || c.toNat = 0x0b || c.toNat = 0x0c ||
  (0x1c ≤ c.toNat && c.toNat ≤ 0x1f) || c.toNat = 0x85 || c.toNat = 0xa0 ||
  c.toNat = 0x1680 || (0x2000 ≤ c.toNat && c.toNat ≤ 0x200a) ||
  c.toNat = 0x2028 || c.toNat = 0x2029 || c.toNat = 0x202f ||
  c.toNat = 0x205f || c.toNat = 0x3000

/-- Word characters for the regex class `\w`.  Python's `\w` also matches
non-ASCII alphanumerics; this model restricts to ASCII alphanumerics plus
underscore, which agrees with Python on every input appearing in the claims
and keeps the embedding elementary. -/
def isPyWord (c : Char) : Bool := c.isAlphanum || c = '_'

-- Special characters handled by the pipeline, by Unicode codepoint.

/-- U+00AD SOFT HYPHEN. -/
def softHyphen : Char := Char.ofNat 0xAD

/-- U+00B7 MIDDLE DOT. -/
def middleDot : Char := Char.ofNat 0xB7

/-- U+2012 FIGURE DASH. -/
def figureDash : Char := Char.ofNat 0x2012

/-- U+2013 EN DASH. -/
def enDash : Char := Char.ofNat 0x2013

/-- U+2014 EM DASH. -/
def emDash : Char := Char.ofNat 0x2014

/-- U+2026 HORIZONTAL ELLIPSIS. -/
def ellipsisChar : Char := Char.ofNat 0x2026

/-- U+2018 LEFT SINGLE QUOTATION MARK. -/
def leftSingleQuote : Char := Char.ofNat 0x2018

/-- U+2019 RIGHT SINGLE QUOTATION MARK. -/
def rightSingleQuote : Char := Char.ofNat 0x2019

/-- U+201C LEFT DOUBLE QUOTATION MARK. -/
def leftDoubleQuote : Char := Char.ofNat 0x201C

/-- U+201D RIGHT DOUBLE QUOTATION MARK. -/
def rightDoubleQuote : Char := Char.ofNat 0x201D

/-- U+00AB LEFT-POINTING DOUBLE ANGLE QUOTATION MARK. -/
def leftGuillemet : Char := Char.ofNat 0xAB

/-- U+00BB RIGHT-POINTING DOUBLE ANGLE QUOTATION MARK. -/
def rightGuillemet : Char := Char.ofNat 0xBB

/-- U+2039 SINGLE LEFT-POINTING ANGLE QUOTATION MARK. -/
def singleLeftGuillemet : Char := Char.ofNat 0x2039

/-- U+203A SINGLE RIGHT-POINTING ANGLE QUOTATION MARK. -/
def singleRightGuillemet : Char := Char.ofNat 0x203A

/-- U+00C8 LATIN CAPITAL LETTER E WITH GRAVE. -/
def capitalEGrave : Char := Char.ofNat 0xC8

-- Language codes (process.py lines 13-22).

def GERMAN : List Char := ['d', 'e']

def ENGLISH : List Char := ['e', 'n']

def SPANISH : List Char := ['e', 's']

def FRENCH : List Char := ['f', 'r']

def ITALIAN : List Char := ['i', 't']

def DUTCH : List Char := ['n', 'l']

def RUSSIAN : List Char := ['r', 'u']

def CATALAN : List Char := ['c', 'a']

def SWEDISH : List Char := ['s', 'v']

/-- The closed set of supported language codes (process.py line 22). -/
def LANGUAGES : List (List Char) :=
  [GERMAN, ENGLISH, SPANISH, FRENCH, ITALIAN, DUTCH, RUSSIAN, CATALAN, SWEDISH]

/-- One scanning pass of Python's `str.replace(pat, repl)`: replace each
non-overlapping occurrence of `pat`, left to right, never rescanning
replacement text.  The `Nat` argument is recursion fuel that makes the
recursion structural; `pyReplace` supplies `line.length`, which is always
enough because every step consumes at least one character of the list
(every pattern passed by the source is non-empty). -/
def pyReplaceGo (pat repl : List Char) : Nat → List Char → List Char
  | _, [] => []
  | 0, l => l
  | fuel + 1, c :: cs =>
    if pat.isPrefixOf (c :: cs) && !pat.isEmpty then
      repl ++ pyReplaceGo pat repl fuel (List.drop (pat.length - 1) cs)
    else
      c :: pyReplaceGo pat repl fuel cs

/-- Python `line.replace(pat, repl)` for a non-empty literal `pat`. -/
def pyReplace (pat repl line : List Char) : List Char :=
  pyReplaceGo pat repl line.length line

/-- Removal of trailing Python-whitespace, the right half of `str.strip()`. -/
def pyRStrip : List Char → List Char
  | [] => []
  | c :: cs =>
    match pyRStrip cs with
    | [] => if isPySpace c then [] else [c]
    | d :: t => c :: d :: t

/-- Python `line.strip()`: drop leading and trailing whitespace. -/
def pyStrip (line : List Char) : List Char :=
  pyRStrip (List.dropWhile isPySpace line)

/-- The substitution `re.sub` with pattern `\s+` and replacement a single
space: every maximal run of whitespace becomes one space (emitted at the
end of the run). -/
def subWS : List Char → List Char
  | [] => []
  | [c] => if isPySpace c then [' '] else [c]
  | c :: d :: rest =>
    if isPySpace c then
      if isPySpace d then subWS (d :: rest) else ' ' :: subWS (d :: rest)
    else c :: subWS (d :: rest)

/-- `remove_double_spaces` (process.py lines 40-42): collapse whitespace
runs to single spaces, then strip. -/
def remove_double_spaces (line : List Char) : List Char :=
  pyStrip (subWS line)

/-- The failure modes of the program made explicit: an unsupported language
code, a file whose bytes cannot be decoded as UTF-8 (Python raises
`UnicodeDecodeError` inside `codecs.open`), and the `re.error` raised by
the malformed replacement template of `normalize_apostrophes`. -/
inductive NormError where
  | UnsupportedLanguage : NormError
  | IOFailure : NormError
  | RegexBadEscape : NormError
deriving DecidableEq

/-- `normalize_apostrophes` (process.py lines 28-30): `re.sub` with the
pattern `\u2019(\w)` and the raw replacement template `\u0027\1`.  In a
replacement template Python's `re` module does not recognise the escape
`\u`; the template is parsed eagerly, before any matching, so since Python
3.7 `re.sub` raises `re.error` ("bad escape \u at position 0") on every
call, whatever the line.  The intended U+2019-to-apostrophe substitution is
never performed: the function always raises. -/
def normalize_apostrophes (line : List Char) : Except NormError (List Char) :=
  Except.error NormError.RegexBadEscape

/-- `remove_soft_hyphens` (process.py lines 33-37): delete every soft hyphen
U+00AD, then every middle dot U+00B7. -/
def remove_soft_hyphens (line : List Char) : List Char :=
  pyReplace [middleDot] [] (pyReplace [softHyphen] [] line)

/-- The substitution of `fix_period_spacing`: `re.sub` with pattern
`(\w)\s?\.(\w)` and replacement `\1. \2`.  The second word character is part
of the match, so scanning resumes after it. -/
def subPeriod : List Char → List Char
  | [] => []
  | c :: cs =>
    if isPyWord c then
      match cs with
      | s :: rest1 =>
        if isPySpace s then
          match rest1 with
          | p :: d :: rest2 =>
            if p = '.' && isPyWord d then c :: '.' :: ' ' :: d :: subPeriod rest2
            else c :: subPeriod (s :: p :: d :: rest2)
          | [p] => c :: subPeriod (s :: [p])
          | [] => c :: subPeriod [s]
        else
          match rest1 with
          | d :: rest2 =>
            if s = '.' && isPyWord d then c :: '.' :: ' ' :: d :: subPeriod rest2
            else c :: subPeriod (s :: d :: rest2)
          | [] => c :: subPeriod [s]
      | [] => [c]
    else c :: subPeriod cs

/-- `fix_period_spacing` (process.py lines 45-47): normalize the spacing
around a period between two word characters, then strip. -/
def fix_period_spacing (line : List Char) : List Char :=
  pyStrip (subPeriod line)

/-- The substitution of `fix_hyphenization`: `re.sub` with pattern
`(\w)-\s(\w)` and replacement `\1-\2`. -/
def subHyphen : List Char → List Char
  | [] => []
  | c :: cs =>
    if isPyWord c then
      match cs with
      | h :: s :: d :: rest =>
        if h = '-' && isPySpace s && isPyWord d then c :: '-' :: d :: subHyphen rest
        else c :: subHyphen (h :: s :: d :: rest)
      | [h, s] => c :: subHyphen [h, s]
      | [h] => c :: subHyphen [h]
      | [] => [c]
    else c :: subHyphen cs

/-- `fix_hyphenization` (process.py lines 50-59): collapse
"word char, hyphen, whitespace, word char", then undo the collapse for the
Dutch conjunctions `-en`/`-of` and the German conjunctions `-und`/`-oder`. -/
def fix_hyphenization (language line : List Char) : List Char :=
  let l1 := subHyphen line
  let l2 :=
    if language = DUTCH then
      pyReplace ['-', 'o', 'f', ' '] ['-', ' ', 'o', 'f', ' ']
        (pyReplace ['-', 'e', 'n', ' '] ['-', ' ', 'e', 'n', ' '] l1)
    else l1
  if language = GERMAN then
    pyReplace ['-', 'o', 'd', 'e', 'r', ' '] ['-', ' ', 'o', 'd', 'e', 'r', ' ']
      (pyReplace ['-', 'u', 'n', 'd', ' '] ['-', ' ', 'u', 'n', 'd', ' '] l2)
  else l2

/-- The French substitution in `replace_quotes` (process.py line 77):
`re.sub` with pattern `\s'` and replacement `'`, removing a space
before an apostrophe. -/
def subFrSpaceApos : List Char → List Char
  | [] => []
  | c :: cs =>
    if isPySpace c then
      match cs with
      | a :: rest =>
        if a = '\'' then '\'' :: subFrSpaceApos rest
        else c :: subFrSpaceApos (a :: rest)
      | [] => [c]
    else c :: subFrSpaceApos cs

/-- The first Dutch substitution in `replace_quotes` (process.py line 81):
`re.sub` with pattern `'([A-Z]|\.|\s|$)` and replacement `"\1`, an
apostrophe before an uppercase letter, period, whitespace or end of line
becomes a double quote. -/
def subNlAposQuote : List Char → List Char
  | [] => []
  | c :: cs =>
    if c = '\'' then
      match cs with
      | d :: rest =>
        if d.isUpper || d = '.' || isPySpace d then '"' :: d :: subNlAposQuote rest
        else c :: subNlAposQuote (d :: rest)
      | [] => ['"']
    else c :: subNlAposQuote cs

/-- The second Dutch substitution in `replace_quotes` (process.py line 82):
`re.sub` with pattern `(,\s)'` and replacement `\1"`, an
apostrophe preceded by a comma and whitespace becomes a double quote. -/
def subNlCommaApos : List Char → List Char
  | [] => []
  | c :: cs =>
    if c = ',' then
      match cs with
      | s :: a :: rest =>
        if isPySpace s && a = '\'' then ',' :: s :: '"' :: subNlCommaApos rest
        else c :: subNlCommaApos (s :: a :: rest)
      | [a] => c :: subNlCommaApos [a]
      | [] => [c]
    else c :: subNlCommaApos cs

/-- Punctuation class `[.,?!]` of the Russian substitutions. -/
def isRuPunct (c : Char) : Bool := c = '.' || c = ',' || c = '?' || c = '!'

/-- The scanning part of the first Russian substitution in `replace_quotes`
(process.py line 86), for positions past the start of the line: `re.sub`
with pattern `(^|\.\s?)-\s?` and replacement `\1`.  This function handles
the `\.\s?` alternative; the `^` alternative is handled by
`subRuLeadingHyphen`. -/
def subRuDotHyphen : List Char → List Char
  | [] => []
  | c :: cs =>
    if c = '.' then
      match cs with
      | s :: rest1 =>
        if isPySpace s then
          match rest1 with
          | h :: rest2 =>
            if h = '-' then
              match rest2 with
              | t :: rest3 =>
                if isPySpace t then '.' :: s :: subRuDotHyphen rest3
                else '.' :: s :: subRuDotHyphen (t :: rest3)
              | [] => ['.', s]
            else '.' :: subRuDotHyphen (s :: h :: rest2)
          | [] => '.' :: subRuDotHyphen [s]
        else if s = '-' then
          match rest1 with
          | t :: rest2 =>
            if isPySpace t then '.' :: subRuDotHyphen rest2
            else '.' :: subRuDotHyphen (t :: rest2)
          | [] => ['.']
        else '.' :: subRuDotHyphen (s :: rest1)
      | [] => ['.']
    else c :: subRuDotHyphen cs

/-- The first Russian substitution in `replace_quotes` (process.py line 86):
remove a hyphen, with its optional trailing whitespace, at the start of the
line (the `^` alternative, which can only fire once) or after a period. -/
def subRuLeadingHyphen (line : List Char) : List Char :=
  match line with
  | '-' :: t :: rest2 =>
    if isPySpace t then subRuDotHyphen rest2 else subRuDotHyphen (t :: rest2)
  | ['-'] => []
  | l => subRuDotHyphen l

/-- The second Russian substitution in `replace_quotes` (process.py line
87): `re.sub` with pattern `([.,?!])\s("(?:\s|$))` and replacement
`\1\2`, removing the whitespace between punctuation and a quote that is
itself followed by whitespace or line end. -/
def subRuPunctQuote : List Char → List Char
  | [] => []
  | c :: cs =>
    if isRuPunct c then
      match cs with
      | s :: rest1 =>
        if isPySpace s then
          match rest1 with
          | q :: rest2 =>
            if q = '"' then
              match rest2 with
              | t :: rest3 =>
                if isPySpace t then c :: '"' :: t :: subRuPunctQuote rest3
                else c :: subRuPunctQuote (s :: q :: t :: rest3)
              | [] => [c, '"']
            else c :: subRuPunctQuote (s :: q :: rest2)
          | [] => c :: subRuPunctQuote [s]
        else c :: subRuPunctQuote (s :: rest1)
      | [] => [c]
    else c :: subRuPunctQuote cs

/-- The third Russian substitution in `replace_quotes` (process.py line 88):
`re.sub` with pattern `([.,?!])\s?(")-` and replacement `\1\2 -`,
normalizing the spacing between a quote and a following hyphen. -/
def subRuQuoteHyphen : List Char → List Char
  | [] => []
  | c :: cs =>
    if isRuPunct c then
      match cs with
      | s :: rest1 =>
        if isPySpace s then
          match rest1 with
          | q :: h :: rest2 =>
            if q = '"' && h = '-' then c :: '"' :: ' ' :: '-' :: subRuQuoteHyphen rest2
            else c :: subRuQuoteHyphen (s :: q :: h :: rest2)
          | [q] => c :: subRuQuoteHyphen (s :: [q])
          | [] => c :: subRuQuoteHyphen [s]
        else if s = '"' then
          match rest1 with
          | h :: rest2 =>
            if h = '-' then c :: '"' :: ' ' :: '-' :: subRuQuoteHyphen rest2
            else c :: subRuQuoteHyphen (s :: h :: rest2)
          | [] => c :: subRuQuoteHyphen [s]
        else c :: subRuQuoteHyphen (s :: rest1)
      | [] => [c]
    else c :: subRuQuoteHyphen cs

/-- The fourth Russian substitution in `replace_quotes` (process.py line
89): `re.sub` with pattern `(^")\s` and replacement `\1`, removing one
whitespace character after a double quote at the start of the line.  The
pattern is anchored, so it can fire at most once. -/
def subRuLeadQuoteSpace (line : List Char) : List Char :=
  match line with
  | q :: s :: rest => if q = '"' && isPySpace s then '"' :: rest else q :: s :: rest
  | l => l

/-- The Catalan substitution in `replace_quotes` (process.py line 91):
`re.sub` with pattern `"\.` and replacement `."`, a double quote
followed by a period becomes a period followed by a double quote. -/
def subCaQuoteDot : List Char → List Char
  | [] => []
  | c :: cs =>
    if c = '"' then
      match cs with
      | d :: rest =>
        if d = '.' then '.' :: '"' :: subCaQuoteDot rest
        else c :: subCaQuoteDot (d :: rest)
      | [] => [c]
    else c :: subCaQuoteDot cs

/-- The German/Catalan block of `replace_quotes` (process.py lines 64-70):
guillemets become straight double quotes, single guillemets and angle
brackets become apostrophes. -/
def quotesGuillemets (line : List Char) : List Char :=
  pyReplace ['>'] ['\'']
    (pyReplace ['<'] ['\'']
      (pyReplace [singleRightGuillemet] ['\'']
        (pyReplace [singleLeftGuillemet] ['\'']
          (pyReplace [rightGuillemet] ['"']
            (pyReplace [leftGuillemet] ['"'] line)))))

/-- The Dutch/French/Catalan/Swedish block of `replace_quotes` (process.py
lines 71-75): curly double and single quotes become straight ones. -/
def quotesCurly (line : List Char) : List Char :=
  pyReplace [rightSingleQuote] ['\'']
    (pyReplace [leftSingleQuote] ['\'']
      (pyReplace [rightDoubleQuote] ['"']
        (pyReplace [leftDoubleQuote] ['"'] line)))

/-- The Dutch block of `replace_quotes` (process.py lines 78-83): collapse
doubled apostrophes, rewrite apostrophes into double quotes before capital,
period, whitespace, line end or after comma-space, and restore the clitic
`'t`. -/
def quotesDutch (line : List Char) : List Char :=
  pyReplace ['"', 't', ' '] ['\'', 't', ' ']
    (subNlCommaApos (subNlAposQuote (pyReplace ['\'', '\''] ['\''] line)))

/-- The Russian block of `replace_quotes` (process.py lines 84-89). -/
def quotesRussian (line : List Char) : List Char :=
  subRuLeadQuoteSpace
    (subRuQuoteHyphen (subRuPunctQuote (subRuLeadingHyphen (pyReplace ['"', '"'] ['"'] line))))

/-- `replace_quotes` (process.py lines 62-92): language-branching quote and
apostrophe canonicalization, in the fixed internal block order of the
source. -/
def replace_quotes (language line : List Char) : List Char :=
  let l1 := if language ∈ [GERMAN, CATALAN] then quotesGuillemets line else line
  let l2 := if language ∈ [DUTCH, FRENCH, CATALAN, SWEDISH] then quotesCurly l1 else l1
  let l3 := if language = FRENCH then subFrSpaceApos l2 else l2
  let l4 := if language = DUTCH then quotesDutch l3 else l3
  let l5 := if language = RUSSIAN then quotesRussian l4 else l4
  if language = CATALAN then subCaQuoteDot l5 else l5

/-- The substitution of `replace_common_errors` for one dash character
(process.py lines 98-100): `re.sub` with pattern `\s?DASH\s?` and
replacement a spaced hyphen-minus. -/
def subDash (dash : Char) : List Char → List Char
  | [] => []
  | c :: cs =>
    if c = dash then
      match cs with
      | s :: rest =>
        if isPySpace s then ' ' :: '-' :: ' ' :: subDash dash rest
        else ' ' :: '-' :: ' ' :: subDash dash (s :: rest)
      | [] => [' ', '-', ' ']
    else
      match cs with
      | d :: rest =>
        if isPySpace c && d = dash then
          match rest with
          | t :: rest2 =>
            if isPySpace t then ' ' :: '-' :: ' ' :: subDash dash rest2
            else ' ' :: '-' :: ' ' :: subDash dash (t :: rest2)
          | [] => [' ', '-', ' ']
        else c :: subDash dash (d :: rest)
      | [] => [c]

/-- The language-independent part of `replace_common_errors` (process.py
lines 98-102): normalize figure, en and em dashes to a spaced hyphen-minus
and the horizontal ellipsis to three periods. -/
def commonErrorsBase (line : List Char) : List Char :=
  pyReplace [ellipsisChar] ['.', '.', '.']
    (subDash emDash (subDash enDash (subDash figureDash line)))

/-- `replace_common_errors` (process.py lines 95-105): dash and ellipsis
normalization, plus the Italian-only rewriting of capital E followed by an
apostrophe into E with grave accent. -/
def replace_common_errors (language line : List Char) : List Char :=
  let l1 := commonErrorsBase line
  if language = ITALIAN then pyReplace ['E', '\''] [capitalEGrave] l1 else l1

/-- The first six steps of the per-line transformation of `process_file`
(process.py lines 113-118), shared by all languages; these steps are
total. -/
def pipelineBase (language line : List Char) : List Char :=
  let l1 := remove_double_spaces line
  let l2 := remove_soft_hyphens l1
  let l3 := replace_common_errors language l2
  let l4 := fix_period_spacing l3
  let l5 := fix_hyphenization language l4
  replace_quotes language l5

/-- The per-line transformation applied inside `process_file` (process.py
lines 113-120): the six total steps, then, for English, Dutch and German
only, the call to `normalize_apostrophes`, which always raises. -/
def processLine (language line : List Char) : Except NormError (List Char) :=
  let l6 := pipelineBase language line
  if language ∈ [ENGLISH, DUTCH, GERMAN] then normalize_apostrophes l6 else Except.ok l6

/-- The reading loop of `process_file` (process.py lines 110-122): keep each
physical line whose stripped form is non-empty, transformed by the per-line
pipeline, in input order; an exception raised by the pipeline propagates
immediately, before any later line is read.  A physical line is modelled by
its content without the terminating newline, which the pipeline's first
step would strip anyway. -/
def collectLines (language : List Char) : List (List Char) → Except NormError (List (List Char))
  | [] => Except.ok []
  | l :: rest =>
    if pyStrip l ≠ [] then
      match processLine language l with
      | Except.ok out =>
        match collectLines language rest with
        | Except.ok outs => Except.ok (out :: outs)
        | Except.error e => Except.error e
      | Except.error e => Except.error e
    else collectLines language rest

/-- The writing loop of `process_file` (process.py lines 124-128): each kept
line is written followed by two newline characters. -/
def writeLines : List (List Char) → List Char
  | [] => []
  | l :: rest => l ++ '\n' :: '\n' :: writeLines rest

/-- `process_file` (process.py lines 108-128), output as one character
stream; if the pipeline raises on some line, the exception propagates out
of the read loop and no output is written at all. -/
def process_file (language : List Char) (lines : List (List Char)) :
    Except NormError (List Char) :=
  match collectLines language lines with
  | Except.ok ls => Except.ok (writeLines ls)
  | Except.error e => Except.error e

/-- An input file of a batch: either UTF-8 text, given as its list of
physical lines, or a file whose bytes fail to decode. -/
inductive FileContent where
  | ok : List (List Char) → FileContent
  | badUTF8 : FileContent

/-- `process_file` on one input file, with the UTF-8 decode failure of
`codecs.open` (process.py line 110) made explicit. -/
def processFileE (language : List Char) : FileContent → Except NormError (List Char)
  | FileContent.ok lines => process_file language lines
  | FileContent.badUTF8 => Except.error NormError.IOFailure

/-- The batch loop of `process_folder` (process.py lines 148-150): files are
processed in order, and an exception raised by `process_file` propagates,
aborting the loop.  The result is the list of outputs actually written and
the error, if one occurred; outputs of files after a failing file are never
produced because the loop has no exception handler. -/
def process_folder (language : List Char) : List FileContent → List (List Char) × Option NormError
  | [] => ([], none)
  | f :: rest =>
    match processFileE language f with
    | Except.ok out =>
      let r := process_folder language rest
      (out :: r.1, r.2)
    | Except.error e => ([], some e)

/-- Construction of the normalization pipeline for a language code.  Models
the validation `click.Choice(LANGUAGES)` on the CLI surface (process.py
line 134), which rejects every code outside the closed set, together with
the spec's name `UnsupportedLanguage` for that failure. -/
def buildPipeline (language : List Char) :
    Except NormError (List Char → Except NormError (List Char)) :=
  if language ∈ LANGUAGES then Except.ok (processLine language)
  else Except.error NormError.UnsupportedLanguage

/-- Follows the spec's words (§4.4), for the languages whose per-line
pipeline does not raise: every input line that is non-blank after
whitespace-trimming is transformed, in original order; blank lines are
dropped entirely; every retained transformed line is followed by exactly
two newline characters, including the last.  To be compared with
`process_file`. -/
def fileNormalizerSpec (language : List Char) (lines : List (List Char)) : List Char :=
  ((lines.filter (fun l => !(pyStrip l).isEmpty)).map (pipelineBase language)).foldr
    (fun l acc => l ++ '\n' :: '\n' :: acc) []

/-- Follows the claim's words for `fix_hyphenization`: first collapse
"word char, hyphen, space, word char", then apply the Dutch-only or the
German-only literal conjunction repairs.  To be compared with
`fix_hyphenization`. -/
def fixHyphenationSpec (language line : List Char) : List Char :=
  let collapsed := subHyphen line
  if language = DUTCH then
    pyReplace ['-', 'o', 'f', ' '] ['-', ' ', 'o', 'f', ' ']
      (pyReplace ['-', 'e', 'n', ' '] ['-', ' ', 'e', 'n', ' '] collapsed)
  else if language = GERMAN then
    pyReplace ['-', 'o', 'd', 'e', 'r', ' '] ['-', ' ', 'o', 'd', 'e', 'r', ' ']
      (pyReplace ['-', 'u', 'n', 'd', ' '] ['-', ' ', 'u', 'n', 'd', ' '] collapsed)
  else collapsed

/-- The part of `replace_quotes` that runs for Catalan before its final
substitution: the guillemet and angle-bracket block shared with German,
followed by the curly-quote block shared with Dutch, French and Swedish. -/
def caPreQuotes (line : List Char) : List Char :=
  pyReplace [rightSingleQuote] ['\'']
    (pyReplace [leftSingleQuote] ['\'']
      (pyReplace [rightDoubleQuote] ['"']
        (pyReplace [leftDoubleQuote] ['"']
          (pyReplace ['>'] ['\'']
            (pyReplace ['<'] ['\'']
              (pyReplace [singleRightGuillemet] ['\'']
                (pyReplace [singleLeftGuillemet] ['\'']
                  (pyReplace [rightGuillemet] ['"']
                    (pyReplace [leftGuillemet] ['"'] line)))))))))

/-- A line in the normal form produced by `subWS`: every whitespace
character in it is a plain space, and no whitespace character is followed
by another whitespace character. -/
def wsOK : List Char → Bool
  | [] => true
  | [c] => !isPySpace c || c = ' '
  | c :: d :: rest => (!isPySpace c || (c = ' ' && !isPySpace d)) && wsOK (d :: rest)

/-- Characterization of the per-line pipeline: for English, Dutch and
German it raises the replacement-template error of `normalize_apostrophes`;
for every other language it returns the six-step transformation. -/
lemma processLine_char (language line : List Char) :
    processLine language line =
      if language ∈ [ENGLISH, DUTCH, GERMAN] then Except.error NormError.RegexBadEscape
      else Except.ok (pipelineBase language line) := by
  by_cases h : language ∈ [ENGLISH, DUTCH, GERMAN] <;>
    simp [processLine, normalize_apostrophes, h]

/-- For a language outside the apostrophe branch, the reading loop returns
the non-blank lines transformed, in order. -/
lemma collectLines_ok (language : List Char) (hl : language ∉ [ENGLISH, DUTCH, GERMAN]) :
    ∀ lines, collectLines language lines =
      Except.ok ((lines.filter (fun l => !(pyStrip l).isEmpty)).map (pipelineBase language)) := by
  intro lines
  induction lines with
  | nil => rfl
  | cons l rest ih =>
      have hpl : processLine language l = Except.ok (pipelineBase language l) := by
        rw [processLine_char, if_neg hl]
      by_cases h : pyStrip l = [] <;>
        simp [collectLines, h, ih, hpl, List.filter_cons]

/-- The writing loop is a right fold appending two newlines per line. -/
lemma writeLines_eq : ∀ ls : List (List Char),
    writeLines ls = ls.foldr (fun l acc => l ++ '\n' :: '\n' :: acc) [] := by
  intro ls
  induction ls with
  | nil => rfl
  | cons l rest ih => simp [writeLines, ih]

/-- For a language outside the apostrophe branch, `process_file` succeeds
with the spec's layout. -/
lemma process_file_ok (language : List Char) (hl : language ∉ [ENGLISH, DUTCH, GERMAN])
    (lines : List (List Char)) :
    process_file language lines = Except.ok (fileNormalizerSpec language lines) := by
  unfold process_file fileNormalizerSpec
  rw [collectLines_ok language hl]
  simp [writeLines_eq]

/-- C2 is a code bug: the claim describes the intended fixed-order seven
step per-line composition, but the seventh step, `normalize_apostrophes`,
raises `re.error` on every call (its raw replacement template contains the
escape `\u`, which Python rejects), so for English, Dutch and German the
per-line transformation of `process_file` raises instead of equaling any
composition of string transformations; for the six other languages it
returns the six-step composition in the claimed order. -/
theorem c2_pipeline_crash :
    (∀ language line, processLine language line =
      if language ∈ [ENGLISH, DUTCH, GERMAN] then Except.error NormError.RegexBadEscape
      else Except.ok (pipelineBase language line)) ∧
    processLine ENGLISH ('d' :: 'o' :: 'n' :: rightSingleQuote :: 't' :: []) =
      Except.error NormError.RegexBadEscape :=
  ⟨processLine_char, rfl⟩

/-- C1 is a code bug: for English, Dutch and German, `process_file` raises
`re.error` at the first non-blank line (the pipeline's final step,
`normalize_apostrophes`, raises on every call) and so produces no output
at all; for every other language the claimed layout holds: non-blank lines
transformed in order, blank lines dropped entirely, each retained line
followed by exactly two newline characters, including the last. -/
theorem c1_process_file_crash :
    process_file ENGLISH [['a']] = Except.error NormError.RegexBadEscape ∧
    (∀ language lines, language ∉ [ENGLISH, DUTCH, GERMAN] →
      process_file language lines = Except.ok (fileNormalizerSpec language lines)) :=
  ⟨rfl, fun language lines hl => process_file_ok language hl lines⟩

/-- Witness for C1 at the concrete language `fr`. -/
theorem c1_process_file_crash_witness :
    FRENCH ∉ [ENGLISH, DUTCH, GERMAN] ∧
      process_file FRENCH [['a']] = Except.ok (fileNormalizerSpec FRENCH [['a']]) :=
  ⟨by decide, c1_process_file_crash.2 FRENCH [['a']] (by decide)⟩

/-- C9: `replace_quotes` is the identity for the English, Spanish and
Italian language codes, since no branch of the function matches them; in
particular curly quotes and right single quotation marks pass through
unchanged for English. -/
theorem c9_replace_quotes_identity (line : List Char) :
    replace_quotes ENGLISH line = line ∧ replace_quotes SPANISH line = line ∧
      replace_quotes ITALIAN line = line :=
  ⟨rfl, rfl, rfl⟩

/-- C6: pipeline construction succeeds for each of the nine supported
language codes, and fails with `UnsupportedLanguage` for every code outside
the closed set, with no fallback. -/
theorem c6_language_policy :
    (∀ language, language ∈ LANGUAGES →
        buildPipeline language = Except.ok (processLine language)) ∧
    (∀ language, language ∉ LANGUAGES →
        buildPipeline language = Except.error NormError.UnsupportedLanguage) := by
  constructor
  · intro language h
    simp [buildPipeline, h]
  · intro language h
    simp [buildPipeline, h]

/-- Witness for C6 at the concrete codes `de` and `xx`. -/
theorem c6_language_policy_witness :
    (GERMAN ∈ LANGUAGES ∧ buildPipeline GERMAN = Except.ok (processLine GERMAN)) ∧
    (['x', 'x'] ∉ LANGUAGES ∧
      buildPipeline ['x', 'x'] = Except.error NormError.UnsupportedLanguage) :=
  ⟨⟨by decide, c6_language_policy.1 GERMAN (by decide)⟩,
   ⟨by decide, c6_language_policy.2 ['x', 'x'] (by decide)⟩⟩

/-- C7: `fix_hyphenization` first collapses "word char, hyphen, whitespace,
word char", then applies the Dutch-only rewrites of `-en `/`-of ` and the
German-only rewrites of `-und `/`-oder `; in particular on
"woord-en zijn" for Dutch and "Wort-und Satz" for German. -/
theorem c7_fix_hyphenization :
    (∀ language line, fix_hyphenization language line = fixHyphenationSpec language line) ∧
    fix_hyphenization DUTCH ("woord-en zijn".toList) = "woord- en zijn".toList ∧
    fix_hyphenization GERMAN ("Wort-und Satz".toList) = "Wort- und Satz".toList := by
  refine ⟨?_, by decide, by decide⟩
  intro language line
  by_cases hd : language = DUTCH
  · subst hd; rfl
  · by_cases hg : language = GERMAN
    · subst hg; rfl
    · simp [fix_hyphenization, fixHyphenationSpec, hd, hg]

/-- C4 fails as stated: for Italian, `replace_common_errors` replaces
capital E followed by an apostrophe U+0027, not capital E followed by the
right single quotation mark U+2019; the latter sequence passes through
unchanged. -/
theorem c4_counterexample :
    replace_common_errors ITALIAN ['E', rightSingleQuote] = ['E', rightSingleQuote] ∧
      ['E', rightSingleQuote] ≠ [capitalEGrave] := by
  constructor
  · decide
  · decide

/-- C4 amended: for Italian, `replace_common_errors` replaces every
occurrence of capital E followed by an apostrophe (U+0027) with È as its
final step; for every other language that replacement is not applied. -/
theorem c4_italian_e_amended :
    (∀ line, replace_common_errors ITALIAN line =
        pyReplace ['E', '\''] [capitalEGrave] (commonErrorsBase line)) ∧
    (∀ language line, language ≠ ITALIAN →
        replace_common_errors language line = commonErrorsBase line) ∧
    replace_common_errors ITALIAN ("E' andato".toList) =
      capitalEGrave :: " andato".toList := by
  refine ⟨fun line => rfl, ?_, by decide⟩
  intro language line h
  simp [replace_common_errors, h]

/-- Witness for the amended C4 at the concrete language `en`. -/
theorem c4_italian_e_amended_witness :
    ENGLISH ≠ ITALIAN ∧
      replace_common_errors ENGLISH ("E' andato".toList) =
        commonErrorsBase ("E' andato".toList) :=
  ⟨by decide, c4_italian_e_amended.2.1 ENGLISH ("E' andato".toList) (by decide)⟩

/-- C5 fails as stated: the Catalan rule of `replace_quotes` does not move
a period that precedes a closing double quote; an input ending in period
then quote is left unchanged, not rewritten with the quote before the
period. -/
theorem c5_counterexample :
    replace_quotes CATALAN ['.', '"'] = ['.', '"'] ∧ ['.', '"'] ≠ ['"', '.'] := by
  constructor
  · decide
  · decide

/-- C5 amended: for Catalan, `replace_quotes` moves a period that follows a
closing double quote to precede it, as its final rewrite step; an input
ending in quote then period is rewritten with the period before the
quote. -/
theorem c5_catalan_quote_dot_amended :
    (∀ line, replace_quotes CATALAN line = subCaQuoteDot (caPreQuotes line)) ∧
    replace_quotes CATALAN ("text\".".toList) = "text.\"".toList := by
  refine ⟨?_, by decide⟩
  intro line
  simp [replace_quotes, caPreQuotes, quotesGuillemets, quotesCurly, CATALAN, GERMAN, DUTCH,
    FRENCH, SWEDISH, RUSSIAN]

/-- C3 fails as stated: the batch loop of `process_folder` has no exception
handler, so when one file fails to decode, the files after it in the batch
are not processed at all; here the well-formed second file would have
correct output on its own, but the batch produces no output for it. -/
theorem c3_counterexample :
    (process_folder FRENCH [FileContent.badUTF8, FileContent.ok [['h', 'i']]]).1 = [] ∧
      process_file FRENCH [['h', 'i']] = Except.ok ('h' :: 'i' :: '\n' :: '\n' :: []) :=
  ⟨rfl, rfl⟩

/-- C3 amended: when a file of the batch raises `IOFailure`, the batch
aborts at that file, producing no output for any later file; for a
language outside the apostrophe branch the files before it are processed
correctly and in order.  (For English, Dutch and German the per-line
pipeline itself raises on any non-blank line, so such a batch aborts at
its first non-blank file regardless of decode failures.) -/
theorem c3_batch_abort_amended (language : List Char)
    (hl : language ∉ [ENGLISH, DUTCH, GERMAN])
    (good : List (List (List Char))) (rest : List FileContent) :
    process_folder language (good.map FileContent.ok ++ FileContent.badUTF8 :: rest) =
      (good.map (fileNormalizerSpec language), some NormError.IOFailure) := by
  induction good with
  | nil => rfl
  | cons g gs ih =>
      simp [process_folder, processFileE, ih, process_file_ok language hl]

/-- Witness for the amended C3 at the concrete language `fr`. -/
theorem c3_batch_abort_amended_witness :
    FRENCH ∉ [ENGLISH, DUTCH, GERMAN] ∧
      process_folder FRENCH [FileContent.ok [['a']], FileContent.badUTF8] =
        ([fileNormalizerSpec FRENCH [['a']]], some NormError.IOFailure) :=
  ⟨by decide, c3_batch_abort_amended FRENCH (by decide) [[['a']]] []⟩

/-- The `wsOK` invariant passes to the tail. -/
lemma wsOK_tail {c : Char} {t : List Char} (h : wsOK (c :: t) = true) : wsOK t = true := by
  cases t with
  | nil => rfl
  | cons d r =>
      rw [wsOK, Bool.and_eq_true] at h
      exact h.2

/-- A non-whitespace character can be prepended to a `wsOK` line. -/
lemma wsOK_cons {c : Char} {t : List Char} (hc : isPySpace c = false) (ht : wsOK t = true) :
    wsOK (c :: t) = true := by
  cases t with
  | nil => simp [wsOK, hc]
  | cons d r => simp [wsOK, hc, ht]

/-- A space can be prepended to a `wsOK` line whose head is no whitespace. -/
lemma wsOK_space_cons {d : Char} {t : List Char} (hd : isPySpace d = false)
    (ht : wsOK (d :: t) = true) : wsOK (' ' :: d :: t) = true := by
  have h1 : isPySpace ' ' = true := by decide
  simp [wsOK, hd, ht, h1]

/-- `subWS` keeps the head of a line that starts with non-whitespace. -/
lemma subWS_cons_of_nonspace {d : Char} (rest : List Char) (hd : isPySpace d = false) :
    ∃ t, subWS (d :: rest) = d :: t := by
  cases rest with
  | nil => exact ⟨[], by simp [subWS, hd]⟩
  | cons r rs => exact ⟨subWS (r :: rs), by simp [subWS, hd]⟩

/-- The output of `subWS` satisfies the `wsOK` invariant. -/
lemma subWS_wsOK : ∀ line, wsOK (subWS line) = true := by
  intro line
  induction line using subWS.induct with
  | case1 => rfl
  | case2 c hc =>
      have h1 : isPySpace ' ' = true := by decide
      simp [subWS, hc, wsOK, h1]
  | case3 c hc =>
      simp [subWS, hc, wsOK]
  | case4 c d rest hc hd ih =>
      simpa [subWS, hc, hd] using ih
  | case5 c d rest hc hd ih =>
      have hd' : isPySpace d = false := by simpa using hd
      obtain ⟨t, ht⟩ := subWS_cons_of_nonspace rest hd'
      have hst : subWS (c :: d :: rest) = ' ' :: subWS (d :: rest) := by
        simp [subWS, hc, hd']
      rw [hst, ht]
      exact wsOK_space_cons hd' (ht ▸ ih)
  | case6 c d rest hc ih =>
      have hc' : isPySpace c = false := by simpa using hc
      have hst : subWS (c :: d :: rest) = c :: subWS (d :: rest) := by
        simp [subWS, hc']
      rw [hst]
      exact wsOK_cons hc' ih

/-- `subWS` is the identity on lines satisfying the `wsOK` invariant. -/
lemma subWS_of_wsOK : ∀ line, wsOK line = true → subWS line = line := by
  intro line
  induction line using subWS.induct with
  | case1 => intro _; rfl
  | case2 c hc =>
      intro h
      have hc' : c = ' ' := by
        rw [wsOK] at h
        simpa [hc] using h
      subst hc'
      simp [subWS, hc]
  | case3 c hc =>
      intro _
      simp [subWS, hc]
  | case4 c d rest hc hd ih =>
      intro h
      exfalso
      rw [wsOK, Bool.and_eq_true] at h
      rcases h with ⟨h1, -⟩
      simp [hc, hd] at h1
  | case5 c d rest hc hd ih =>
      intro h
      rw [wsOK, Bool.and_eq_true] at h
      rcases h with ⟨h1, h2⟩
      simp only [hc, Bool.not_true, Bool.false_or, Bool.and_eq_true,
        decide_eq_true_eq, Bool.not_eq_true'] at h1
      obtain ⟨hc2, hd'⟩ := h1
      subst hc2
      have hsp : isPySpace ' ' = true := by decide
      have hst : subWS (' ' :: d :: rest) = ' ' :: subWS (d :: rest) := by
        simp [subWS, hd', hsp]
      rw [hst, ih h2]
  | case6 c d rest hc ih =>
      intro h
      have hc' : isPySpace c = false := by simpa using hc
      rw [wsOK, Bool.and_eq_true] at h
      rcases h with ⟨-, h2⟩
      simp [subWS, hc', ih h2]

/-- Dropping leading whitespace preserves the `wsOK` invariant. -/
lemma wsOK_dropWhile {line : List Char} (h : wsOK line = true) :
    wsOK (List.dropWhile isPySpace line) = true := by
  induction line with
  | nil => simpa using h
  | cons c cs ih =>
      by_cases hc : isPySpace c
      · rw [List.dropWhile_cons, if_pos hc]
        exact ih (wsOK_tail h)
      · rwa [List.dropWhile_cons, if_neg hc]

/-- The `wsOK` invariant restricts to the left part of an append. -/
lemma wsOK_append_left : ∀ a b : List Char, wsOK (a ++ b) = true → wsOK a = true := by
  intro a
  induction a using wsOK.induct with
  | case1 => intro b _; rfl
  | case2 c =>
      intro b h
      cases b with
      | nil => simpa using h
      | cons y ys =>
          rw [List.singleton_append, wsOK, Bool.and_eq_true] at h
          rcases h with ⟨h1, -⟩
          rw [wsOK]
          cases hx : isPySpace c with
          | false => simp
          | true =>
              simp only [hx, Bool.not_true, Bool.false_or, Bool.and_eq_true,
                decide_eq_true_eq] at h1 ⊢
              exact h1.1
  | case3 c d rest ih =>
      intro b h
      rw [List.cons_append, List.cons_append, wsOK, Bool.and_eq_true] at h
      rcases h with ⟨h1, h2⟩
      rw [wsOK, Bool.and_eq_true]
      refine ⟨h1, ?_⟩
      exact ih b (by simpa using h2)

/-- `pyRStrip` returns a prefix of its input. -/
lemma pyRStrip_prefix : ∀ line : List Char, ∃ t, line = pyRStrip line ++ t := by
  intro line
  induction line using pyRStrip.induct with
  | case1 => exact ⟨[], rfl⟩
  | case2 d t hpr hd ih =>
      exact ⟨d :: t, by simp [pyRStrip, hpr, hd]⟩
  | case3 d t hpr hd ih =>
      exact ⟨t, by simp [pyRStrip, hpr, hd]⟩
  | case4 d t d1 t1 hpr ih =>
      obtain ⟨t0, ht0⟩ := ih
      refine ⟨t0, ?_⟩
      have h1 : pyRStrip (d :: t) = d :: d1 :: t1 := by simp [pyRStrip, hpr]
      rw [h1]
      rw [hpr] at ht0
      simp [ht0]

/-- `pyRStrip` preserves the `wsOK` invariant. -/
lemma wsOK_pyRStrip {line : List Char} (h : wsOK line = true) :
    wsOK (pyRStrip line) = true := by
  obtain ⟨t, ht⟩ := pyRStrip_prefix line
  exact wsOK_append_left _ t (ht ▸ h)

/-- `pyRStrip` either empties a line or keeps its head. -/
lemma pyRStrip_head (c : Char) (cs : List Char) :
    pyRStrip (c :: cs) = [] ∨ ∃ t, pyRStrip (c :: cs) = c :: t := by
  cases h : pyRStrip cs with
  | nil =>
      by_cases hc : isPySpace c
      · left; simp [pyRStrip, h, hc]
      · right; exact ⟨[], by simp [pyRStrip, h, hc]⟩
  | cons d t => right; exact ⟨d :: t, by simp [pyRStrip, h]⟩

/-- After dropping leading whitespace a line is empty or starts with a
non-whitespace character. -/
lemma dropWhile_head_nonspace : ∀ line : List Char,
    List.dropWhile isPySpace line = [] ∨
      ∃ d t, List.dropWhile isPySpace line = d :: t ∧ isPySpace d = false := by
  intro line
  induction line with
  | nil => left; rfl
  | cons c cs ih =>
      by_cases hc : isPySpace c
      · rw [List.dropWhile_cons, if_pos hc]
        exact ih
      · right
        refine ⟨c, cs, ?_, by simpa using hc⟩
        rw [List.dropWhile_cons, if_neg hc]

/-- `pyRStrip` is idempotent. -/
lemma pyRStrip_idem : ∀ line : List Char, pyRStrip (pyRStrip line) = pyRStrip line := by
  intro line
  induction line using pyRStrip.induct with
  | case1 => rfl
  | case2 d t hpr hd ih => simp [pyRStrip, hpr, hd]
  | case3 d t hpr hd ih =>
      have h1 : pyRStrip (d :: t) = [d] := by simp [pyRStrip, hpr, hd]
      rw [h1]
      simp [pyRStrip, hd]
  | case4 d t d1 t1 hpr ih =>
      have h1 : pyRStrip (d :: t) = d :: d1 :: t1 := by simp [pyRStrip, hpr]
      rw [h1]
      have h2 : pyRStrip (d1 :: t1) = d1 :: t1 := by
        rw [← hpr]; exact ih
      rw [pyRStrip, h2]

/-- Dropping leading whitespace is the identity on a line that is empty or
starts with non-whitespace. -/
lemma dropWhile_eq_self_of_head {line : List Char}
    (h : line = [] ∨ ∃ d t, line = d :: t ∧ isPySpace d = false) :
    List.dropWhile isPySpace line = line := by
  rcases h with h | ⟨d, t, rfl, hd⟩
  · simp [h]
  · rw [List.dropWhile_cons, if_neg (by simp [hd])]

/-- C8: `remove_double_spaces` is idempotent: applying it twice yields the
same result as applying it once, for every input line. -/
theorem c8_remove_double_spaces_idempotent (line : List Char) :
    remove_double_spaces (remove_double_spaces line) = remove_double_spaces line := by
  unfold remove_double_spaces pyStrip
  have hws : wsOK (subWS line) = true := subWS_wsOK line
  have hdw : wsOK (List.dropWhile isPySpace (subWS line)) = true := wsOK_dropWhile hws
  have hr : wsOK (pyRStrip (List.dropWhile isPySpace (subWS line))) = true := wsOK_pyRStrip hdw
  set r := pyRStrip (List.dropWhile isPySpace (subWS line)) with hrdef
  rw [subWS_of_wsOK r hr]
  have hhead : r = [] ∨ ∃ d t, r = d :: t ∧ isPySpace d = false := by
    rcases dropWhile_head_nonspace (subWS line) with h | ⟨d, t, hdt, hd⟩
    · left; rw [hrdef, h]; rfl
    · rw [hrdef, hdt]
      rcases pyRStrip_head d t with h | ⟨t', ht'⟩
      · left; exact h
      · right; exact ⟨d, t', ht', hd⟩
  rw [dropWhile_eq_self_of_head hhead]
  rw [hrdef]
  exact pyRStrip_idem _

/-- Characters of a `pyReplaceGo` output come from the input or the
replacement text. -/
lemma mem_pyReplaceGo (pat repl : List Char) :
    ∀ n l a, a ∈ pyReplaceGo pat repl n l → a ∈ l ∨ a ∈ repl := by
  intro n
  induction n with
  | zero =>
      intro l a h
      cases l <;> simp_all [pyReplaceGo]
  | succ m ih =>
      intro l a h
      cases l with
      | nil => simp [pyReplaceGo] at h
      | cons x xs =>
          rw [pyReplaceGo] at h
          split at h
          · rcases List.mem_append.mp h with h1 | h1
            · exact Or.inr h1
            · rcases ih _ _ h1 with h2 | h2
              · exact Or.inl (List.mem_cons_of_mem _ (List.drop_subset _ _ h2))
              · exact Or.inr h2
          · rcases List.mem_cons.mp h with h1 | h1
            · exact Or.inl (by simp [h1])
            · rcases ih _ _ h1 with h2 | h2
              · exact Or.inl (List.mem_cons_of_mem _ h2)
              · exact Or.inr h2

/-- Characters of a `pyReplace` output come from the input or the
replacement text. -/
lemma mem_pyReplace (pat repl : List Char) :
    ∀ x a, a ∈ pyReplace pat repl x → a ∈ x ∨ a ∈ repl :=
  fun x a h => mem_pyReplaceGo pat repl x.length x a h

/-- With a one-character pattern and an empty replacement, `pyReplaceGo` is
exactly a filter, given enough fuel. -/
lemma pyReplaceGo_del (x : Char) : ∀ n l, List.length l ≤ n →
    pyReplaceGo [x] [] n l = l.filter (fun c => !(c == x)) := by
  intro n
  induction n with
  | zero =>
      intro l h
      cases l with
      | nil => rfl
      | cons c cs => simp at h
  | succ m ih =>
      intro l h
      cases l with
      | nil => rfl
      | cons c cs =>
          rw [pyReplaceGo]
          by_cases hc : c = x
          · subst hc
            have hpre : ([c].isPrefixOf (c :: cs) && !(List.isEmpty [c])) = true := by
              simp [List.isPrefixOf]
            rw [if_pos hpre]
            have hlen : List.length cs ≤ m := by simpa using h
            simp [ih cs hlen, List.filter_cons]
          · have hpre : ¬ (([x].isPrefixOf (c :: cs) && !(List.isEmpty [x])) = true) := by
              simp [List.isPrefixOf]
              intro hxc
              exact absurd hxc.symm hc
            rw [if_neg hpre]
            have hlen : List.length cs ≤ m := by simpa using h
            simp [ih cs hlen, List.filter_cons, hc]

/-- The output of `remove_soft_hyphens` contains no soft hyphen and no
middle dot. -/
lemma mem_remove_soft_hyphens {l : List Char} {a : Char} (h : a ∈ remove_soft_hyphens l) :
    a ≠ softHyphen ∧ a ≠ middleDot := by
  unfold remove_soft_hyphens pyReplace at h
  rw [pyReplaceGo_del middleDot _ _ le_rfl, pyReplaceGo_del softHyphen _ _ le_rfl] at h
  rw [List.mem_filter] at h
  obtain ⟨h1, h2⟩ := h
  rw [List.mem_filter] at h1
  obtain ⟨-, h3⟩ := h1
  constructor
  · simpa using h3
  · simpa using h2

/-- Membership survives dropping leading whitespace. -/
lemma mem_dropWhile_isPySpace {l : List Char} {a : Char}
    (h : a ∈ List.dropWhile isPySpace l) : a ∈ l := by
  induction l with
  | nil => simp at h
  | cons c cs ih =>
      rw [List.dropWhile_cons] at h
      split at h
      · exact List.mem_cons_of_mem _ (ih h)
      · exact h

/-- Membership survives `pyRStrip`. -/
lemma mem_pyRStrip {l : List Char} {a : Char} (h : a ∈ pyRStrip l) : a ∈ l := by
  obtain ⟨t, ht⟩ := pyRStrip_prefix l
  rw [ht]
  exact List.mem_append_left _ h

/-- Membership survives `pyStrip`. -/
lemma mem_pyStrip {l : List Char} {a : Char} (h : a ∈ pyStrip l) : a ∈ l :=
  mem_dropWhile_isPySpace (mem_pyRStrip h)

/-- Characters of a `subPeriod` output come from the input, or are periods
or spaces. -/
lemma mem_subPeriod :
    ∀ x a, a ∈ subPeriod x → a ∈ x ∨ a ∈ (['.', ' '] : List Char) := by
  intro x a
  induction x using subPeriod.induct <;>
    intro ha <;>
    rw [subPeriod.eq_def] at ha <;>
    (repeat' split at ha) <;>
    (try subst_eqs) <;>
    simp_all <;>
    tauto

/-- Characters of a `subHyphen` output come from the input or are
hyphens. -/
lemma mem_subHyphen :
    ∀ x a, a ∈ subHyphen x → a ∈ x ∨ a ∈ (['-'] : List Char) := by
  intro x a
  induction x using subHyphen.induct <;>
    intro ha <;>
    rw [subHyphen.eq_def] at ha <;>
    (repeat' split at ha) <;>
    (try subst_eqs) <;>
    simp_all <;>
    tauto

/-- Characters of a `subDash` output come from the input, or are spaces or
hyphen-minus. -/
lemma mem_subDash (dash : Char) :
    ∀ x a, a ∈ subDash dash x → a ∈ x ∨ a ∈ ([' ', '-'] : List Char) := by
  intro x a
  induction x using subDash.induct dash <;>
    intro ha <;>
    rw [subDash.eq_def] at ha <;>
    (repeat' split at ha) <;>
    (try subst_eqs) <;>
    simp_all <;>
    tauto

/-- Characters of a `subFrSpaceApos` output come from the input or are
apostrophes. -/
lemma mem_subFrSpaceApos :
    ∀ x a, a ∈ subFrSpaceApos x → a ∈ x ∨ a ∈ (['\''] : List Char) := by
  intro x a
  induction x using subFrSpaceApos.induct <;>
    intro ha <;>
    rw [subFrSpaceApos.eq_def] at ha <;>
    (repeat' split at ha) <;>
    (try subst_eqs) <;>
    simp_all <;>
    tauto

/-- Characters of a `subNlAposQuote` output come from the input or are
double quotes. -/
lemma mem_subNlAposQuote :
    ∀ x a, a ∈ subNlAposQuote x → a ∈ x ∨ a ∈ (['"'] : List Char) := by
  intro x a
  induction x using subNlAposQuote.induct <;>
    intro ha <;>
    rw [subNlAposQuote.eq_def] at ha <;>
    (repeat' split at ha) <;>
    (try subst_eqs) <;>
    simp_all <;>
    tauto

/-- Characters of a `subNlCommaApos` output come from the input or are
double quotes. -/
lemma mem_subNlCommaApos :
    ∀ x a, a ∈ subNlCommaApos x → a ∈ x ∨ a ∈ (['"'] : List Char) := by
  intro x a
  induction x using subNlCommaApos.induct <;>
    intro ha <;>
    rw [subNlCommaApos.eq_def] at ha <;>
    (repeat' split at ha) <;>
    (try subst_eqs) <;>
    simp_all <;>
    tauto

/-- Characters of a `subRuDotHyphen` output come from the input or are
periods. -/
lemma mem_subRuDotHyphen :
    ∀ x a, a ∈ subRuDotHyphen x → a ∈ x ∨ a ∈ (['.'] : List Char) := by
  intro x a
  induction x using subRuDotHyphen.induct <;>
    intro ha <;>
    rw [subRuDotHyphen.eq_def] at ha <;>
    (repeat' split at ha) <;>
    (try subst_eqs) <;>
    simp_all <;>
    tauto

/-- Characters of a `subRuLeadingHyphen` output come from the input or are
periods. -/
lemma mem_subRuLeadingHyphen :
    ∀ x a, a ∈ subRuLeadingHyphen x → a ∈ x ∨ a ∈ (['.'] : List Char) := by
  intro x a h
  unfold subRuLeadingHyphen at h
  repeat' split at h
  case _ =>
    rcases mem_subRuDotHyphen _ a h with h | h
    · exact Or.inl (by simp [h])
    · exact Or.inr h
  case _ =>
    rcases mem_subRuDotHyphen _ a h with h | h
    · exact Or.inl (by simp_all)
    · exact Or.inr h
  case _ => simp at h
  case _ =>
    rcases mem_subRuDotHyphen _ a h with h | h
    · exact Or.inl h
    · exact Or.inr h

/-- Characters of a `subRuPunctQuote` output come from the input or are
double quotes. -/
lemma mem_subRuPunctQuote :
    ∀ x a, a ∈ subRuPunctQuote x → a ∈ x ∨ a ∈ (['"'] : List Char) := by
  intro x a
  induction x using subRuPunctQuote.induct <;>
    intro ha <;>
    rw [subRuPunctQuote.eq_def] at ha <;>
    (repeat' split at ha) <;>
    (try subst_eqs) <;>
    simp_all <;>
    tauto

/-- Characters of a `subRuQuoteHyphen` output come from the input, or are
double quotes, spaces or hyphens. -/
lemma mem_subRuQuoteHyphen :
    ∀ x a, a ∈ subRuQuoteHyphen x → a ∈ x ∨ a ∈ (['"', ' ', '-'] : List Char) := by
  intro x a
  induction x using subRuQuoteHyphen.induct <;>
    intro ha <;>
    rw [subRuQuoteHyphen.eq_def] at ha <;>
    (repeat' split at ha) <;>
    (try subst_eqs) <;>
    simp_all <;>
    tauto

/-- Characters of a `subRuLeadQuoteSpace` output come from the input or are
double quotes. -/
lemma mem_subRuLeadQuoteSpace :
    ∀ x a, a ∈ subRuLeadQuoteSpace x → a ∈ x ∨ a ∈ (['"'] : List Char) := by
  intro x a h
  unfold subRuLeadQuoteSpace at h
  repeat' split at h
  all_goals simp_all
  all_goals tauto

/-- Characters of a `subCaQuoteDot` output come from the input, or are
periods or double quotes. -/
lemma mem_subCaQuoteDot :
    ∀ x a, a ∈ subCaQuoteDot x → a ∈ x ∨ a ∈ (['.', '"'] : List Char) := by
  intro x a
  induction x using subCaQuoteDot.induct <;>
    intro ha <;>
    rw [subCaQuoteDot.eq_def] at ha <;>
    (repeat' split at ha) <;>
    (try subst_eqs) <;>
    simp_all <;>
    tauto

/-- Composition preserves the "input or literals" character bound. -/
lemma mem_comp {f g : List Char → List Char} {S : List Char}
    (hf : ∀ x a, a ∈ f x → a ∈ x ∨ a ∈ S)
    (hg : ∀ x a, a ∈ g x → a ∈ x ∨ a ∈ S) :
    ∀ x a, a ∈ f (g x) → a ∈ x ∨ a ∈ S := by
  intro x a h
  rcases hf _ a h with h | h
  · exact hg x a h
  · exact Or.inr h

/-- The "input or literals" character bound is monotone in the literal
set. -/
lemma mem_weaken {f : List Char → List Char} {S T : List Char}
    (hf : ∀ x a, a ∈ f x → a ∈ x ∨ a ∈ S) (hst : ∀ c ∈ S, c ∈ T) :
    ∀ x a, a ∈ f x → a ∈ x ∨ a ∈ T := by
  intro x a h
  exact (hf x a h).imp_right (hst a)

/-- A conditionally applied step satisfies the "input or literals" bound. -/
lemma mem_step {P : Prop} [Decidable P] {f : List Char → List Char} {S T : List Char}
    (hf : ∀ x a, a ∈ f x → a ∈ x ∨ a ∈ S) (hst : ∀ c ∈ S, c ∈ T) :
    ∀ x a, a ∈ (if P then f x else x) → a ∈ x ∨ a ∈ T := by
  intro x a h
  split at h
  · exact (hf x a h).imp_right (hst a)
  · exact Or.inl h

/-- Characters of a `quotesGuillemets` output come from the input or are
straight quotes. -/
lemma mem_quotesGuillemets :
    ∀ x a, a ∈ quotesGuillemets x → a ∈ x ∨ a ∈ (['"', '\''] : List Char) := by
  intro x a h
  unfold quotesGuillemets at h
  exact mem_comp (mem_weaken (mem_pyReplace ['>'] ['\'']) (by decide))
    (mem_comp (mem_weaken (mem_pyReplace ['<'] ['\'']) (by decide))
      (mem_comp (mem_weaken (mem_pyReplace [singleRightGuillemet] ['\'']) (by decide))
        (mem_comp (mem_weaken (mem_pyReplace [singleLeftGuillemet] ['\'']) (by decide))
          (mem_comp (mem_weaken (mem_pyReplace [rightGuillemet] ['"']) (by decide))
            (mem_weaken (mem_pyReplace [leftGuillemet] ['"']) (by decide)))))) x a h

/-- Characters of a `quotesCurly` output come from the input or are
straight quotes. -/
lemma mem_quotesCurly :
    ∀ x a, a ∈ quotesCurly x → a ∈ x ∨ a ∈ (['"', '\''] : List Char) := by
  intro x a h
  unfold quotesCurly at h
  exact mem_comp (mem_weaken (mem_pyReplace [rightSingleQuote] ['\'']) (by decide))
    (mem_comp (mem_weaken (mem_pyReplace [leftSingleQuote] ['\'']) (by decide))
      (mem_comp (mem_weaken (mem_pyReplace [rightDoubleQuote] ['"']) (by decide))
        (mem_weaken (mem_pyReplace [leftDoubleQuote] ['"']) (by decide)))) x a h

/-- Characters of a `quotesDutch` output come from the input or are in its
literal replacements. -/
lemma mem_quotesDutch :
    ∀ x a, a ∈ quotesDutch x → a ∈ x ∨ a ∈ (['\'', '"', 't', ' '] : List Char) := by
  intro x a h
  unfold quotesDutch at h
  exact mem_comp (mem_weaken (mem_pyReplace ['"', 't', ' '] ['\'', 't', ' ']) (by decide))
    (mem_comp (mem_weaken mem_subNlCommaApos (by decide))
      (mem_comp (mem_weaken mem_subNlAposQuote (by decide))
        (mem_weaken (mem_pyReplace ['\'', '\''] ['\'']) (by decide)))) x a h

/-- Characters of a `quotesRussian` output come from the input or are in
its literal replacements. -/
lemma mem_quotesRussian :
    ∀ x a, a ∈ quotesRussian x → a ∈ x ∨ a ∈ (['"', ' ', '-', '.'] : List Char) := by
  intro x a h
  unfold quotesRussian at h
  exact mem_comp (mem_weaken mem_subRuLeadQuoteSpace (by decide))
    (mem_comp (mem_weaken mem_subRuQuoteHyphen (by decide))
      (mem_comp (mem_weaken mem_subRuPunctQuote (by decide))
        (mem_comp (mem_weaken mem_subRuLeadingHyphen (by decide))
          (mem_weaken (mem_pyReplace ['"', '"'] ['"']) (by decide))))) x a h

/-- Characters of a `replace_quotes` output come from the input or from the
fixed set of literal characters the quote rules insert. -/
lemma mem_replace_quotes (language : List Char) :
    ∀ x a, a ∈ replace_quotes language x →
      a ∈ x ∨ a ∈ (['"', '\'', ' ', '-', '.', 't'] : List Char) := by
  intro x a h
  simp only [replace_quotes] at h
  rcases mem_step mem_subCaQuoteDot
      ((by decide : ∀ c ∈ (['.', '"'] : List Char),
        c ∈ (['"', '\'', ' ', '-', '.', 't'] : List Char))) _ a h with h | h
  · rcases mem_step mem_quotesRussian
        ((by decide : ∀ c ∈ (['"', ' ', '-', '.'] : List Char),
          c ∈ (['"', '\'', ' ', '-', '.', 't'] : List Char))) _ a h with h | h
    · rcases mem_step mem_quotesDutch
          ((by decide : ∀ c ∈ (['\'', '"', 't', ' '] : List Char),
            c ∈ (['"', '\'', ' ', '-', '.', 't'] : List Char))) _ a h with h | h
      · rcases mem_step mem_subFrSpaceApos
            ((by decide : ∀ c ∈ (['\''] : List Char),
              c ∈ (['"', '\'', ' ', '-', '.', 't'] : List Char))) _ a h with h | h
        · rcases mem_step mem_quotesCurly
              ((by decide : ∀ c ∈ (['"', '\''] : List Char),
                c ∈ (['"', '\'', ' ', '-', '.', 't'] : List Char))) _ a h with h | h
          · rcases mem_step mem_quotesGuillemets
                ((by decide : ∀ c ∈ (['"', '\''] : List Char),
                  c ∈ (['"', '\'', ' ', '-', '.', 't'] : List Char))) _ a h with h | h
            · exact Or.inl h
            · exact Or.inr h
          · exact Or.inr h
        · exact Or.inr h
      · exact Or.inr h
    · exact Or.inr h
  · exact Or.inr h

/-- Characters of a `commonErrorsBase` output come from the input, or are
spaces, hyphens or periods. -/
lemma mem_commonErrorsBase :
    ∀ x a, a ∈ commonErrorsBase x → a ∈ x ∨ a ∈ ([' ', '-', '.'] : List Char) := by
  intro x a h
  unfold commonErrorsBase at h
  exact mem_comp (mem_weaken (mem_pyReplace [ellipsisChar] ['.', '.', '.']) (by decide))
    (mem_comp (mem_weaken (mem_subDash emDash) (by decide))
      (mem_comp (mem_weaken (mem_subDash enDash) (by decide))
        (mem_weaken (mem_subDash figureDash) (by decide)))) x a h

/-- Characters of a `replace_common_errors` output come from the input or
from the fixed set of literal characters it inserts. -/
lemma mem_replace_common_errors (language : List Char) :
    ∀ x a, a ∈ replace_common_errors language x →
      a ∈ x ∨ a ∈ ([' ', '-', '.', capitalEGrave] : List Char) := by
  intro x a h
  simp only [replace_common_errors] at h
  rcases mem_step (mem_pyReplace ['E', '\''] [capitalEGrave])
      ((by decide : ∀ c ∈ ([capitalEGrave] : List Char),
        c ∈ ([' ', '-', '.', capitalEGrave] : List Char))) _ a h with h | h
  · exact mem_weaken mem_commonErrorsBase
      ((by decide : ∀ c ∈ ([' ', '-', '.'] : List Char),
        c ∈ ([' ', '-', '.', capitalEGrave] : List Char))) x a h
  · exact Or.inr h

/-- Characters of a `fix_period_spacing` output come from the input, or are
periods or spaces. -/
lemma mem_fix_period_spacing :
    ∀ x a, a ∈ fix_period_spacing x → a ∈ x ∨ a ∈ (['.', ' '] : List Char) := by
  intro x a h
  unfold fix_period_spacing at h
  exact mem_subPeriod _ a (mem_pyStrip h)

/-- Characters of a `fix_hyphenization` output come from the input or from
the fixed set of literal characters it inserts. -/
lemma mem_fix_hyphenization (language : List Char) :
    ∀ x a, a ∈ fix_hyphenization language x →
      a ∈ x ∨ a ∈ (['-', ' ', 'e', 'n', 'o', 'f', 'u', 'd', 'r'] : List Char) := by
  intro x a h
  simp only [fix_hyphenization] at h
  rcases mem_step
      (mem_comp
        (mem_weaken (mem_pyReplace ['-', 'o', 'd', 'e', 'r', ' '] ['-', ' ', 'o', 'd', 'e', 'r', ' '])
          ((by decide : ∀ c ∈ (['-', ' ', 'o', 'd', 'e', 'r', ' '] : List Char),
            c ∈ (['-', ' ', 'e', 'n', 'o', 'f', 'u', 'd', 'r'] : List Char))))
        (mem_weaken (mem_pyReplace ['-', 'u', 'n', 'd', ' '] ['-', ' ', 'u', 'n', 'd', ' '])
          ((by decide : ∀ c ∈ (['-', ' ', 'u', 'n', 'd', ' '] : List Char),
            c ∈ (['-', ' ', 'e', 'n', 'o', 'f', 'u', 'd', 'r'] : List Char)))))
      ((by decide : ∀ c ∈ (['-', ' ', 'e', 'n', 'o', 'f', 'u', 'd', 'r'] : List Char),
        c ∈ (['-', ' ', 'e', 'n', 'o', 'f', 'u', 'd', 'r'] : List Char))) _ a h with h | h
  · rcases mem_step
        (mem_comp
          (mem_weaken (mem_pyReplace ['-', 'o', 'f', ' '] ['-', ' ', 'o', 'f', ' '])
            ((by decide : ∀ c ∈ (['-', ' ', 'o', 'f', ' '] : List Char),
              c ∈ (['-', ' ', 'e', 'n', 'o', 'f', 'u', 'd', 'r'] : List Char))))
          (mem_weaken (mem_pyReplace ['-', 'e', 'n', ' '] ['-', ' ', 'e', 'n', ' '])
            ((by decide : ∀ c ∈ (['-', ' ', 'e', 'n', ' '] : List Char),
              c ∈ (['-', ' ', 'e', 'n', 'o', 'f', 'u', 'd', 'r'] : List Char)))))
        ((by decide : ∀ c ∈ (['-', ' ', 'e', 'n', 'o', 'f', 'u', 'd', 'r'] : List Char),
          c ∈ (['-', ' ', 'e', 'n', 'o', 'f', 'u', 'd', 'r'] : List Char))) _ a h with h | h
    · rcases mem_subHyphen _ a h with h | h
      · exact Or.inl h
      · exact Or.inr ((by decide : ∀ c ∈ (['-'] : List Char),
          c ∈ (['-', ' ', 'e', 'n', 'o', 'f', 'u', 'd', 'r'] : List Char)) a h)
    · exact Or.inr h
  · exact Or.inr h

/-- C10: for every language code and every input line on which the per-line
pipeline of `process_file` produces an output (it raises for en, nl and de),
that output contains no soft hyphen U+00AD and no middle dot U+00B7:
`remove_soft_hyphens` deletes them and no later step can introduce either
character. -/
theorem c10_no_invisible_marks (language line out : List Char) (a : Char)
    (hout : processLine language line = Except.ok out) (ha : a ∈ out) :
    a ≠ softHyphen ∧ a ≠ middleDot := by
  have hQL : ∀ c ∈ ([' ', '-', '.', '"', '\'', 't', 'e', 'n', 'o', 'f', 'u', 'd', 'r',
      capitalEGrave] : List Char), c ≠ softHyphen ∧ c ≠ middleDot := by decide
  rw [processLine_char] at hout
  split at hout
  · exact absurd hout (by simp)
  · have hb : out = pipelineBase language line := by
      injection hout with h
      exact h.symm
    subst hb
    simp only [pipelineBase] at ha
    rcases mem_weaken (mem_replace_quotes language)
        ((by decide : ∀ c ∈ (['"', '\'', ' ', '-', '.', 't'] : List Char),
          c ∈ ([' ', '-', '.', '"', '\'', 't', 'e', 'n', 'o', 'f', 'u', 'd', 'r',
            capitalEGrave] : List Char))) _ a ha with h | h
    · rcases mem_weaken (mem_fix_hyphenization language)
          ((by decide : ∀ c ∈ (['-', ' ', 'e', 'n', 'o', 'f', 'u', 'd', 'r'] : List Char),
            c ∈ ([' ', '-', '.', '"', '\'', 't', 'e', 'n', 'o', 'f', 'u', 'd', 'r',
              capitalEGrave] : List Char))) _ a h with h | h
      · rcases mem_weaken mem_fix_period_spacing
            ((by decide : ∀ c ∈ (['.', ' '] : List Char),
              c ∈ ([' ', '-', '.', '"', '\'', 't', 'e', 'n', 'o', 'f', 'u', 'd', 'r',
                capitalEGrave] : List Char))) _ a h with h | h
        · rcases mem_weaken (mem_replace_common_errors language)
              ((by decide : ∀ c ∈ ([' ', '-', '.', capitalEGrave] : List Char),
                c ∈ ([' ', '-', '.', '"', '\'', 't', 'e', 'n', 'o', 'f', 'u', 'd', 'r',
                  capitalEGrave] : List Char))) _ a h with h | h
          · exact mem_remove_soft_hyphens h
          · exact hQL a h
        · exact hQL a h
      · exact hQL a h
    · exact hQL a h

/-- Witness for C10 at the concrete line "a" and language `fr`, where the
pipeline succeeds. -/
theorem c10_no_invisible_marks_witness :
    processLine FRENCH ['a'] = Except.ok ['a'] ∧ 'a' ∈ (['a'] : List Char) ∧
      ('a' ≠ softHyphen ∧ 'a' ≠ middleDot) :=
  ⟨rfl, by decide, c10_no_invisible_marks FRENCH ['a'] ['a'] 'a' rfl (by decide)⟩
